import Mathlib

/-
Verification development for the hf-mcp-server repository.

Shallow embedding of the parts of the source relevant to the frozen claims:
JSON request rewriting (repo-search-shim.ts, repo-search-migration.ts,
tool-normalizer), the two-level metadata cache (gradio cache module), the
progress-relay and client-lifecycle skeletons (gradio-caller.ts and
gradio-endpoint-connector.ts), the schema parse/normalize pipeline
(gradio-schema.ts), the replica URL rewrite (gradio-caller.ts) and the
image-content filter (gradio-endpoint-connector.ts).

JavaScript objects are modelled as association lists of string keys, with
lookup returning the first binding, update replacing the first binding in
place or appending, and delete removing the key, mirroring the semantics of
property access, spread-with-override and the delete operator on objects
with unique keys.
-/

/-- JSON-like value: the shape of request bodies and schema responses that
the ingress rewriter and the schema normalizer operate on. -/
inductive JsonVal where
  | null : JsonVal
  | bool : Bool → JsonVal
  | num : Int → JsonVal
  | str : String → JsonVal
  | arr : List JsonVal → JsonVal
  | obj : List (String × JsonVal) → JsonVal

/-- First-binding lookup in an association list (JS property access). -/
def alookup {α : Type} : List (String × α) → String → Option α
  | [], _ => none
  | (k, v) :: rest, key => if k = key then some v else alookup rest key

/-- Replace-first-or-append update (JS spread with an overriding key, or
plain assignment). -/
def aset {α : Type} : List (String × α) → String → α → List (String × α)
  | [], key, v => [(key, v)]
  | (k, w) :: rest, key, v =>
    if k = key then (key, v) :: rest else (k, w) :: aset rest key v

/-- Remove a key (the JS delete operator; keys of real JS objects are
unique, so removing every binding coincides with removing the one). -/
def aremove {α : Type} (fields : List (String × α)) (key : String) :
    List (String × α) :=
  fields.filter (fun kv => kv.1 ≠ key)

/-- Property access on a JSON value: string-keyed fields exist only on
objects (on arrays and primitives a named property reads as undefined). -/
def jgetField (v : JsonVal) (key : String) : Option JsonVal :=
  match v with
  | .obj fs => alookup fs key
  | _ => none

/-- JS `String.prototype.trim`: strip leading and trailing whitespace. -/
def jsTrim (s : String) : String :=
  String.mk
    (((s.data.dropWhile Char.isWhitespace).reverse.dropWhile
        Char.isWhitespace).reverse)

/-- JS `String.prototype.toLowerCase`, character by character. -/
def lowerString (s : String) : String :=
  String.mk (s.data.map Char.toLower)

/-- Canonical search tool id: `REPO_SEARCH_TOOL_CONFIG.name` is
`hub_repo_search` in the repo-search tool source, and the migration helper
documents that legacy ids map to the canonical `hub_repo_search` id. -/
def REPO_SEARCH_TOOL_ID : String := "hub_repo_search"

/-- Modelled from the spec: `MODEL_SEARCH_TOOL_ID` is declared in the shared
`@llmindset/hf-mcp` package, whose constants file is not under src/; spec
section 4.7 names the legacy tool `model_search`. -/
def MODEL_SEARCH_TOOL_ID : String := "model_search"

/-- Modelled from the spec: `DATASET_SEARCH_TOOL_ID` is declared in the
shared package, not under src/; spec section 4.7 names it `dataset_search`. -/
def DATASET_SEARCH_TOOL_ID : String := "dataset_search"

/-- Modelled from the spec: legacy per-repo-type detail tool id for models,
declared in the shared package (not under src/); only its identity and
distinctness from the other ids matter to the normalizer. -/
def MODEL_DETAIL_TOOL_ID : String := "model_detail"

/-- Modelled from the spec: legacy per-repo-type detail tool id for
datasets, declared in the shared package (not under src/). -/
def DATASET_DETAIL_TOOL_ID : String := "dataset_detail"

/-- Modelled from the spec: the canonical single inspection tool id that
legacy detail tools collapse to, declared in the shared package (not under
src/). -/
def HUB_REPO_DETAILS_TOOL_ID : String := "hub_repo_details"

/-- Alias set for legacy model-search ids (repo-search-migration.ts). -/
def LEGACY_MODEL_SEARCH_ALIASES : List String :=
  [ MODEL_SEARCH_TOOL_ID, "model-search", "hf_model_search"]

/-- Alias set for legacy dataset-search ids (repo-search-migration.ts). -/
def LEGACY_DATASET_SEARCH_ALIASES : List String :=
  [DATASET_SEARCH_TOOL_ID, "dataset-search", "hf_dataset_search"]

/-- Alias set for legacy repo-search ids (repo-search-migration.ts). -/
def LEGACY_REPO_SEARCH_ALIASES : List String :=
  [REPO_SEARCH_TOOL_ID, "repo_search", "repo-search", "hf_repo_search"]

/-- `mapLegacySearchToolId` from repo-search-migration.ts. -/
def mapLegacySearchToolId (toolId : String) : String :=
  if LEGACY_MODEL_SEARCH_ALIASES.contains toolId
      || LEGACY_DATASET_SEARCH_ALIASES.contains toolId
      || LEGACY_REPO_SEARCH_ALIASES.contains toolId then
    REPO_SEARCH_TOOL_ID
  else toolId

/-- `isLegacyModelSearchTool` from repo-search-migration.ts. -/
def isLegacyModelSearchTool (toolName : String) : Bool :=
  LEGACY_MODEL_SEARCH_ALIASES.contains toolName

/-- `isLegacyDatasetSearchTool` from repo-search-migration.ts. -/
def isLegacyDatasetSearchTool (toolName : String) : Bool :=
  LEGACY_DATASET_SEARCH_ALIASES.contains toolName

/-- `isLegacyRepoSearchTool` from repo-search-migration.ts: an alias of the
repo-search set that is not already the canonical id. -/
def isLegacyRepoSearchTool (toolName : String) : Bool :=
  LEGACY_REPO_SEARCH_ALIASES.contains toolName
    && toolName ≠ REPO_SEARCH_TOOL_ID

/-- `normalizeBuiltInTools` from the shared tool-normalizer: map legacy
search ids to the canonical id, collapse legacy detail ids into one hub
inspect id appended at the end, and de-duplicate preserving first
occurrence. -/
def normalizeBuiltInTools (ids : List String) : List String :=
  let step := fun (acc : List String × List String × Bool) (rawId : String) =>
    let seen := acc.1
    let normalized := acc.2.1
    let addHubInspect := acc.2.2
    let normalizedToolId := mapLegacySearchToolId rawId
    if normalizedToolId = MODEL_DETAIL_TOOL_ID
        || normalizedToolId = DATASET_DETAIL_TOOL_ID then
      (seen, normalized, true)
    else if seen.contains normalizedToolId then
      acc
    else
      (normalizedToolId :: seen, normalized ++ [normalizedToolId], addHubInspect)
  let folded := ids.foldl step ([], [], false)
  if folded.2.2 && !(folded.1.contains HUB_REPO_DETAILS_TOOL_ID) then
    folded.2.1 ++ [HUB_REPO_DETAILS_TOOL_ID]
  else folded.2.1

/-- `toStringArray` from repo-search-shim.ts: keep only string elements of
an array value, anything else yields the empty list. -/
def toStringArray (value : Option JsonVal) : List String :=
  match value with
  | some (.arr xs) =>
    xs.filterMap (fun x => match x with | .str s => some s | _ => none)
  | _ => []

/-- `uniq` from repo-search-shim.ts: de-duplicate preserving first
occurrence (spread of a Set built from the list). -/
def uniqStrings (values : List String) : List String :=
  values.foldl (fun acc s => if acc.contains s then acc else acc ++ [s]) []

/-- Read a field as a string, if it is present and a string. -/
def stringField (fields : List (String × JsonVal)) (key : String) :
    Option String :=
  match alookup fields key with
  | some (.str s) => some s
  | _ => none

/-- `rewriteModelSearchArguments` from repo-search-shim.ts. The `arguments`
value of the request may be absent or a non-object, in which case the shim
returns a fresh object with only `repo_types`. -/
def rewriteModelSearchArguments (argumentsInput : Option JsonVal) : JsonVal :=
  match argumentsInput with
  | some (.obj fs) =>
    let nextArgs := aset fs "repo_types" (.arr [.str "model"])
    let existingFilters := toStringArray (alookup nextArgs "filters")
    let task := stringField nextArgs "task"
    let library := stringField nextArgs "library"
    let mergedFilters := uniqStrings
      (existingFilters ++ task.toList ++ library.toList)
    let nextArgs := aremove (aremove nextArgs "task") "library"
    if mergedFilters.isEmpty then
      .obj (aremove nextArgs "filters")
    else
      .obj (aset nextArgs "filters" (.arr (mergedFilters.map .str)))
  | _ => .obj [("repo_types", .arr [.str "model"])]

/-- `rewriteDatasetSearchArguments` from repo-search-shim.ts. -/
def rewriteDatasetSearchArguments (argumentsInput : Option JsonVal) : JsonVal :=
  match argumentsInput with
  | some (.obj fs) =>
    let nextArgs := aset fs "repo_types" (.arr [.str "dataset"])
    let existingFilters := toStringArray (alookup nextArgs "filters")
    let tags := toStringArray (alookup nextArgs "tags")
    let mergedFilters := uniqStrings (existingFilters ++ tags)
    let nextArgs := aremove nextArgs "tags"
    if mergedFilters.isEmpty then
      .obj (aremove nextArgs "filters")
    else
      .obj (aset nextArgs "filters" (.arr (mergedFilters.map .str)))
  | _ => .obj [("repo_types", .arr [.str "dataset"])]

/-- Result record of the ingress rewriter (repo-search-shim.ts). -/
structure RewriteResult where
  rewrittenBody : JsonVal
  legacyToolName : Option String
  rewrittenToolName : Option String

/-- `rewriteLegacySearchToolCallRequest` from repo-search-shim.ts: rewrite a
legacy model/dataset/repo search tools/call body into a canonical
hub_repo_search request; anything not matching is returned unchanged.
A non-object body, a body whose `method` is not the string `tools/call`, a
non-object `params`, or a non-string tool name all read as "no legacy tool"
and pass through (property access on arrays and primitives reads as
undefined, so those branches collapse to the unchanged case). -/
def rewriteLegacySearchToolCallRequest (requestBody : JsonVal) : RewriteResult :=
  match requestBody with
  | .obj bodyFields =>
    match alookup bodyFields "method" with
    | some (.str m) =>
      if m = "tools/call" then
        match alookup bodyFields "params" with
        | some (.obj paramFields) =>
          match alookup paramFields "name" with
          | some (.str toolName) =>
            if isLegacyModelSearchTool toolName then
              { rewrittenBody := .obj (aset bodyFields "params"
                  (.obj (aset (aset paramFields "name" (.str REPO_SEARCH_TOOL_ID))
                    "arguments"
                    (rewriteModelSearchArguments (alookup paramFields "arguments"))))),
                legacyToolName := some toolName,
                rewrittenToolName := some REPO_SEARCH_TOOL_ID }
            else if isLegacyDatasetSearchTool toolName then
              { rewrittenBody := .obj (aset bodyFields "params"
                  (.obj (aset (aset paramFields "name" (.str REPO_SEARCH_TOOL_ID))
                    "arguments"
                    (rewriteDatasetSearchArguments (alookup paramFields "arguments"))))),
                legacyToolName := some toolName,
                rewrittenToolName := some REPO_SEARCH_TOOL_ID }
            else if isLegacyRepoSearchTool toolName then
              { rewrittenBody := .obj (aset bodyFields "params"
                  (.obj (aset paramFields "name" (.str REPO_SEARCH_TOOL_ID)))),
                legacyToolName := some toolName,
                rewrittenToolName := some REPO_SEARCH_TOOL_ID }
            else
              { rewrittenBody := requestBody,
                legacyToolName := none, rewrittenToolName := none }
          | _ =>
            { rewrittenBody := requestBody,
              legacyToolName := none, rewrittenToolName := none }
        | _ =>
          { rewrittenBody := requestBody,
            legacyToolName := none, rewrittenToolName := none }
      else
        { rewrittenBody := requestBody,
          legacyToolName := none, rewrittenToolName := none }
    | _ =>
      { rewrittenBody := requestBody,
        legacyToolName := none, rewrittenToolName := none }
  | _ =>
    { rewrittenBody := requestBody,
      legacyToolName := none, rewrittenToolName := none }

/-- The model_search example request body of the spec's concrete scenario. -/
def modelSearchExampleBody : JsonVal :=
  .obj [("method", .str "tools/call"),
        ("params", .obj
          [("name", .str "model_search"),
           ("arguments", .obj
             [("query", .str "qwen"),
              ("task", .str "text-generation"),
              ("library", .str "transformers"),
              ("filters", .arr [.str "featured"])])])]

/-- The expected rewritten body for the model_search example. -/
def modelSearchExpectedBody : JsonVal :=
  .obj [("method", .str "tools/call"),
        ("params", .obj
          [("name", .str "hub_repo_search"),
           ("arguments", .obj
             [("query", .str "qwen"),
              ("filters", .arr
                [.str "featured", .str "text-generation", .str "transformers"]),
              ("repo_types", .arr [.str "model"])])])]

/-- The tool name carried by a tools/call body's params object, when the
body, params and name all have the expected shapes. -/
def paramsToolName (x : JsonVal) : Option String :=
  match x with
  | .obj bodyFields =>
    match alookup bodyFields "params" with
    | some (.obj paramFields) =>
      match alookup paramFields "name" with
      | some (.str s) => some s
      | _ => none
    | _ => none
  | _ => none

/-- Cached space metadata record (gradio cache module). The source field
named after the privacy of the space is a reserved word in Lean and is
rendered `privateFlag`; `_id` is rendered `idStr`. -/
structure CachedSpaceMetadata where
  idStr : String
  name : String
  subdomain : String
  emoji : String
  privateFlag : Bool
  sdk : String
  runtimeStage : Option String
  etag : Option String
  fetchedAt : Nat
deriving DecidableEq

/-- State of the in-memory `SpaceMetadataCache` class: the backing map plus
the hit/miss/revalidation counters it maintains. -/
structure SpaceMetadataCacheState where
  cache : List (String × CachedSpaceMetadata)
  hits : Nat
  misses : Nat
  etagRevalidations : Nat
deriving DecidableEq

/-- Default `SPACE_METADATA_TTL` (300000 ms) from `CACHE_CONFIG`. -/
def SPACE_METADATA_TTL_DEFAULT : Nat := 300000

/-- `SpaceMetadataCache.get`: return the entry when present and younger than
the TTL, a miss otherwise; counters updated as in the source. Time is a
monotone Nat clock: `now - fetchedAt` truncates at zero exactly where the
JS subtraction would be negative, and both compare below the TTL alike. -/
def metadataGet (ttl now : Nat) (st : SpaceMetadataCacheState)
    (spaceName : String) :
    Option CachedSpaceMetadata × SpaceMetadataCacheState :=
  match alookup st.cache spaceName with
  | none => (none, { st with misses := st.misses + 1 })
  | some entry =>
    if now - entry.fetchedAt < ttl then
      (some entry, { st with hits := st.hits + 1 })
    else
      (none, { st with misses := st.misses + 1 })

/-- `SpaceMetadataCache.getForRevalidation`: the raw entry, TTL ignored. -/
def metadataGetForRevalidation (st : SpaceMetadataCacheState)
    (spaceName : String) : Option CachedSpaceMetadata :=
  alookup st.cache spaceName

/-- `SpaceMetadataCache.set`: unconditional replace. -/
def metadataSet (st : SpaceMetadataCacheState) (spaceName : String)
    (metadata : CachedSpaceMetadata) : SpaceMetadataCacheState :=
  { st with cache := aset st.cache spaceName metadata }

/-- `SpaceMetadataCache.updateTimestamp`: bump `fetchedAt` of an existing
entry to now after a 304 revalidation; no-op when absent. -/
def metadataUpdateTimestamp (now : Nat) (st : SpaceMetadataCacheState)
    (spaceName : String) : SpaceMetadataCacheState :=
  match alookup st.cache spaceName with
  | some entry =>
    { st with
        cache := aset st.cache spaceName { entry with fetchedAt := now },
        etagRevalidations := st.etagRevalidations + 1 }
  | none => st

/-- Modelled from the spec: the write path of the discovery pipeline lives
in gradio-discovery.ts, which is not under src/. Spec section 4.1:
`put_metadata(ref, value)` is an unconditional replace iff `!value.private`,
and "private spaces are never cached ... Any fetch result with private=true
bypasses put_*". -/
def putMetadata (st : SpaceMetadataCacheState) (spaceName : String)
    (metadata : CachedSpaceMetadata) : SpaceMetadataCacheState :=
  if metadata.privateFlag then st else metadataSet st spaceName metadata

/-- A write against the metadata cache: a discovery-pipeline put (which
filters private entries) or a 304 timestamp touch. -/
inductive MetadataCacheOp where
  | put : String → CachedSpaceMetadata → MetadataCacheOp
  | touch : String → Nat → MetadataCacheOp

/-- Apply one cache write. -/
def applyMetadataOp (st : SpaceMetadataCacheState) :
    MetadataCacheOp → SpaceMetadataCacheState
  | .put spaceName m => putMetadata st spaceName m
  | .touch spaceName now => metadataUpdateTimestamp now st spaceName

/-- The empty cache a fresh process starts from. -/
def emptyMetadataCache : SpaceMetadataCacheState := ⟨[], 0, 0, 0⟩

/-- Run a sequence of cache writes from the empty cache. -/
def runMetadataOps (ops : List MetadataCacheOp) : SpaceMetadataCacheState :=
  ops.foldl applyMetadataOp emptyMetadataCache

/-- A public (non-private) sample metadata record. -/
def sampleMetadataPub : CachedSpaceMetadata :=
  { idStr := "gradio_evalstate-flux1-schnell"
    name := "evalstate/flux1_schnell"
    subdomain := "evalstate-flux1-schnell"
    emoji := ""
    privateFlag := false
    sdk := "gradio"
    runtimeStage := none
    etag := none
    fetchedAt := 0 }

/-- A progress notification as relayed by the bridge: optional progress,
total and message fields. -/
structure ProgressNote where
  progress : Option Int
  total : Option Int
  message : Option String
deriving DecidableEq

/-- Relay state of `callGradioToolWithHeaders`: the one-shot
`progressRelayDisabled` latch and the number of downstream
`sendNotification` calls made so far. -/
structure RelayState where
  progressRelayDisabled : Bool
  sendCalls : Nat
deriving DecidableEq

/-- One upstream progress notification processed by
`sendProgressNotification` in gradio-caller.ts: skip when no extra or
already disabled; an aborted signal latches the disable without sending;
otherwise attempt the downstream send, and latch the disable when that
attempt throws (the catch block). `sendThrows` says whether the n-th
downstream send throws. -/
def gradioCallerRelayStep (extraPresent aborted : Bool)
    (sendThrows : Nat → Bool) (st : RelayState) (_note : ProgressNote) :
    RelayState :=
  if !extraPresent || st.progressRelayDisabled then st
  else if aborted then { st with progressRelayDisabled := true }
  else
    let attempt := st.sendCalls
    let st := { st with sendCalls := st.sendCalls + 1 }
    if sendThrows attempt then { st with progressRelayDisabled := true }
    else st

/-- Process a whole sequence of upstream progress notifications through the
gradio-caller relay, starting from the fresh per-invocation state. -/
def gradioCallerRelayRun (extraPresent aborted : Bool)
    (sendThrows : Nat → Bool) (notes : List ProgressNote) : RelayState :=
  notes.foldl (gradioCallerRelayStep extraPresent aborted sendThrows)
    ⟨false, 0⟩

/-- The progress relay of `createToolHandler` in
gradio-endpoint-connector.ts: its `onprogress` callback increments the
notification counter and awaits `extra.sendNotification` unconditionally,
with no disable latch and no try/catch, so one downstream send is attempted
for every upstream notification regardless of earlier failures. Returns the
number of `sendNotification` calls made. -/
def createToolHandlerRelayRun (notes : List ProgressNote) : Nat :=
  notes.foldl (fun sendCalls _note => sendCalls + 1) 0

/-- The two progress notifications of the repo's own relay test. -/
def progressNoteFirst : ProgressNote := ⟨some 1, some 10, some "first"⟩

/-- Second progress notification of the relay scenario. -/
def progressNoteSecond : ProgressNote := ⟨some 2, some 10, some "second"⟩

/-- A content-item object: the `type` field when present and a string, the
`text` field when present and a string, and an opaque stand-in for every
other field, preserved byte-for-byte by all operations. -/
structure ContentObj where
  typeField : Option String
  textField : Option String
  rest : String
deriving DecidableEq

/-- A single content item of a CallToolResult: a raw string, an object, or
some other primitive treated as opaque. -/
inductive ContentItem where
  | strItem : String → ContentItem
  | objItem : ContentObj → ContentItem
  | otherItem : String → ContentItem
deriving DecidableEq

/-- The slice of a CallToolResult the rewrite and filter operate on. -/
structure CallToolResult where
  content : List ContentItem
  isError : Bool
deriving DecidableEq

/-- Outcome of the upstream tools/call request: a result or a thrown
transport/protocol error. -/
inductive UpstreamOutcome where
  | ok : CallToolResult → UpstreamOutcome
  | threw : String → UpstreamOutcome

/-- Client lifecycle events of one dynamic tool invocation. -/
inductive InvocationEvent where
  | openClient
  | closeClient
  | returned
  | threwError
deriving DecidableEq

/-- Control-flow skeleton of `callGradioToolWithHeaders`
(gradio-caller.ts): connect the transient SSE client, then a try block
whose `finally` awaits `remoteClient.close()`, so the close happens before
the result is returned and before a thrown error propagates. -/
def callGradioToolEvents (outcome : UpstreamOutcome) : List InvocationEvent :=
  InvocationEvent.openClient ::
    (match outcome with
     | .ok _ => [InvocationEvent.closeClient, InvocationEvent.returned]
     | .threw _ => [InvocationEvent.closeClient, InvocationEvent.threwError])

/-- Control-flow skeleton of the handler returned by `createToolHandler`
(gradio-endpoint-connector.ts): `createLazyConnection` opens a transient
SSE client, the call is issued, an isError result is converted into a
thrown error, and the function returns or rethrows; no path calls
`close()` on the client — the `finally` block only logs the Gradio
event. -/
def createToolHandlerEvents (outcome : UpstreamOutcome) :
    List InvocationEvent :=
  InvocationEvent.openClient ::
    (match outcome with
     | .ok r =>
       if r.isError then [InvocationEvent.threwError]
       else [InvocationEvent.returned]
     | .threw _ => [InvocationEvent.threwError])

/-- Options of `stripImageContentFromResult`. -/
structure ImageFilterOptions where
  enabled : Bool
  toolName : String
  outwardFacingName : String
deriving DecidableEq

/-- An item is dropped by the image filter when it is an object whose
`type` field is a string that lowercases to `image`; raw strings, opaque
primitives and objects without a string `type` are kept. -/
def isImageItem (item : ContentItem) : Bool :=
  match item with
  | .objItem o =>
    match o.typeField with
    | some t => lowerString t = "image"
    | none => false
  | _ => false

/-- Placeholder text substituted when stripping removes every item. -/
def imageOmittedText : String :=
  "Image content omitted due to client configuration (no_image_content=true)."

/-- `stripImageContentFromResult` from gradio-endpoint-connector.ts. -/
def stripImageContentFromResult (callResult : CallToolResult)
    (opts : ImageFilterOptions) : CallToolResult :=
  if !opts.enabled then callResult
  else
    let content := callResult.content
    if content.isEmpty then callResult
    else
      let filteredContent := content.filter (fun item => !isImageItem item)
      if filteredContent.length = content.length then callResult
      else
        let finalContent :=
          if filteredContent.isEmpty then
            [ContentItem.objItem ⟨some "text", some imageOmittedText, ""⟩]
          else filteredContent
        { callResult with content := finalContent }

/-- JS `String.prototype.split` restricted to a single-character separator:
empty segments are kept and the empty string splits to one empty segment. -/
def splitChars (sep : Char) : List Char → List (List Char)
  | [] => [[]]
  | c :: rest =>
    let r := splitChars sep rest
    if c = sep then [] :: r
    else
      match r with
      | [] => [[c]]
      | h :: t => (c :: h) :: t

/-- Split a string on a separator character, JS semantics. -/
def jsSplit (s : String) (sep : Char) : List String :=
  (splitChars sep s.data).map (fun cs => String.mk cs)

/-- `extractReplicaId` from gradio-caller.ts: falsy input yields null; split
on hyphen, require at least two parts, and take the last part unless it is
empty or whitespace-only. -/
def extractReplicaId (headerValue : Option String) : Option String :=
  match headerValue with
  | none => none
  | some hv =>
    if hv = "" then none
    else
      let parts := jsSplit hv '-'
      if parts.length < 2 then none
      else
        let replicaId := parts.getLastD ""
        if jsTrim replicaId = "" then none else some replicaId

/-- Character class `[^\s"']` of the URL pattern: anything that is not
whitespace, a double quote or an apostrophe. -/
def isHostChar (c : Char) : Bool :=
  !c.isWhitespace && c ≠ Char.ofNat 34 && c ≠ Char.ofNat 39

/-- The literal prefix of the URL pattern. -/
def httpsPrefixChars : List Char := "https://".data

/-- The literal middle segment of the URL pattern. -/
def gradioApiChars : List Char := "/gradio_api".data

/-- Greedy backtracking of the group `([^\s"']+)` followed by the literal
`/gradio_api`: the largest nonempty host length k, bounded by the maximal
run of host characters, such that the literal starts right after; counting
down from the bound mirrors the regex engine shrinking the greedy group. -/
def hostLenAux (s1 : List Char) : Nat → Option Nat
  | 0 => none
  | k + 1 =>
    if gradioApiChars.isPrefixOf (s1.drop (k + 1)) then some (k + 1)
    else hostLenAux s1 k

/-- Match the pattern `https://([^\s"']+)/gradio_api(\S*)?` at the head of
the character list, returning the host group, the trailing non-space group
and the total number of characters consumed. -/
def matchGradioUrlAt (s : List Char) : Option (List Char × List Char × Nat) :=
  if httpsPrefixChars.isPrefixOf s then
    let s1 := s.drop 8
    match hostLenAux s1 (s1.takeWhile isHostChar).length with
    | some k =>
      let host := s1.take k
      let s2 := s1.drop (k + 11)
      let rest := s2.takeWhile (fun c => !c.isWhitespace)
      some (host, rest, 8 + k + 11 + rest.length)
    | none => none
  else none

/-- Global scan-and-replace of the URL pattern, as `String.replace` with a
global regex: try a match at every position, emit the replacement and
resume after the match, otherwise copy one character. Every successful
match consumes at least twenty characters, so fuel equal to the text length
suffices and the zero-fuel fallback is unreachable. -/
def rewriteGradioUrlsGo (replicaId : String) : Nat → List Char → List Char
  | 0, s => s
  | _ + 1, [] => []
  | fuel + 1, c :: cs =>
    match matchGradioUrlAt (c :: cs) with
    | some (host, rest, consumed) =>
      httpsPrefixChars ++ host ++ "/--replicas/".data ++ replicaId.data
        ++ gradioApiChars ++ rest
        ++ rewriteGradioUrlsGo replicaId fuel ((c :: cs).drop consumed)
    | none => c :: rewriteGradioUrlsGo replicaId fuel cs

/-- The `rewriteText` closure of `rewriteReplicaUrlsInResult`: replace every
URL match with the host, the replica path segment and the captured rest. -/
def rewriteText (replicaId : String) (text : String) : String :=
  String.mk (rewriteGradioUrlsGo replicaId text.data.length text.data)

/-- `rewriteReplicaUrlsInResult` from gradio-caller.ts. The first argument
is the `NO_REPLICA_REWRITE` environment kill-switch. Raw-string items are
rewritten into text blocks (marked changed only when the text differs),
object items with a string `text` field are cloned with the rewritten text
only when it differs, and everything else is preserved; the original result
is returned untouched when no item changed. -/
def rewriteReplicaUrlsInResult (noReplicaRewrite : Bool)
    (result : CallToolResult) (proxiedReplicaHeader : Option String) :
    CallToolResult :=
  if noReplicaRewrite then result
  else
    match extractReplicaId proxiedReplicaHeader with
    | none => result
    | some replicaId =>
      let rewriteItem : ContentItem → ContentItem × Bool := fun item =>
        match item with
        | .strItem s =>
          let rewritten := rewriteText replicaId s
          if rewritten ≠ s then (.objItem ⟨some "text", some rewritten, ""⟩, true)
          else (.objItem ⟨some "text", some s, ""⟩, false)
        | .objItem o =>
          match o.textField with
          | some t =>
            let rewritten := rewriteText replicaId t
            if rewritten ≠ t then
              (.objItem { o with textField := some rewritten }, true)
            else (.objItem o, false)
          | none => (.objItem o, false)
        | .otherItem tag => (.otherItem tag, false)
      let mapped := result.content.map rewriteItem
      if mapped.any (fun p => p.2) then
        { result with content := mapped.map Prod.fst }
      else result

/-- A result whose single text item contains one matching URL. -/
def replicaExampleResult : CallToolResult :=
  ⟨[.objItem ⟨some "text", some "https://h.hf.space/gradio_api", ""⟩], false⟩

/-- The input text of the spec's concrete rewrite scenario. -/
def qwenInputText : String :=
  "prefix https://mcp-tools-qwen-image-fast.hf.space/gradio_api suffix"

/-- The expected rewritten text of the spec's concrete rewrite scenario. -/
def qwenExpectedText : String :=
  "prefix https://mcp-tools-qwen-image-fast.hf.space/--replicas/dspr4/gradio_api suffix"

/-- Input result of the concrete rewrite scenario: one text item plus one
non-text (image) item. -/
def qwenInputResult : CallToolResult :=
  ⟨[.objItem ⟨some "text", some qwenInputText, ""⟩,
    .objItem ⟨some "image", none, "imagebytes"⟩], false⟩

/-- Expected output of the concrete rewrite scenario: the text rewritten,
the image item byte-equal to the input. -/
def qwenExpectedResult : CallToolResult :=
  ⟨[.objItem ⟨some "text", some qwenExpectedText, ""⟩,
    .objItem ⟨some "image", none, "imagebytes"⟩], false⟩

/-- Substring test on character lists, the semantics of JS
`String.prototype.includes`. -/
def containsSub : List Char → List Char → Bool
  | [], pat => pat.isEmpty
  | c :: rest, pat => pat.isPrefixOf (c :: rest) || containsSub rest pat

/-- JS `a.includes(b)` on strings. -/
def stringIncludes (s pat : String) : Bool := containsSub s.data pat.data

/-- The dropped-tool condition: the lowercased name contains `<lambda`. -/
def hasLambdaName (name : String) : Bool :=
  stringIncludes (lowerString name) "<lambda"

/-- A parsed tool entry (gradio-schema.ts): the name, the description when
present and a string, and the raw input schema value. -/
structure ParsedTool where
  name : String
  description : Option String
  inputSchema : JsonVal

/-- Detected schema shape. -/
inductive ParsedSchemaFormat where
  | array
  | object
deriving DecidableEq

/-- Result of `parseGradioSchemaResponse`. -/
structure ParsedGradioSchema where
  format : ParsedSchemaFormat
  tools : List ParsedTool

/-- The array-form filter predicate of `parseGradioSchemaResponse`: keep
entries that are objects with a string `name` and an `inputSchema` key
(presence only), projected to a parsed tool. -/
def parseArrayToolEntry (t : JsonVal) : Option ParsedTool :=
  match t with
  | .obj fs =>
    match alookup fs "name", alookup fs "inputSchema" with
    | some (.str n), some isch => some ⟨n, stringField fs "description", isch⟩
    | _, _ => none
  | _ => none

/-- The object-form mapping of `parseGradioSchemaResponse`: each key/value
pair becomes a tool named by the key whose schema is the value; reading
`.description` off a null value throws in JS, which surfaces as an error. -/
def parseObjectEntries :
    List (String × JsonVal) → Except String (List ParsedTool)
  | [] => .ok []
  | (name, toolSchema) :: rest =>
    match toolSchema with
    | .null => .error "TypeError: cannot read properties of null"
    | _ =>
      match parseObjectEntries rest with
      | .error e => .error e
      | .ok ts =>
        .ok (⟨name,
              (match jgetField toolSchema "description" with
               | some (.str d) => some d
               | _ => none),
              toolSchema⟩ :: ts)

/-- `parseGradioSchemaResponse` from gradio-schema.ts: array form filters
valid entries and rejects when none remain; object form maps the entries
and rejects when there are none; a null value is typeof object but compares
equal to null in JS, so it falls to the final format error with every other
non-array non-object value. -/
def parseGradioSchemaResponse (schemaResponse : JsonVal) :
    Except String ParsedGradioSchema :=
  match schemaResponse with
  | .arr xs =>
    let tools := xs.filterMap parseArrayToolEntry
    if tools.isEmpty then .error "Invalid schema: no tools found in array schema"
    else .ok ⟨.array, tools⟩
  | .obj fs =>
    match parseObjectEntries fs with
    | .error e => .error e
    | .ok tools =>
      if tools.isEmpty then
        .error "Invalid schema: no tools found in object schema"
      else .ok ⟨.object, tools⟩
  | _ => .error "Invalid schema format: expected array or object"

/-- A normalized SDK tool record as produced by `normalizeParsedTools`. -/
structure NormalizedTool where
  name : String
  description : String
  inputSchema : JsonVal

/-- `normalizeParsedTools` from gradio-schema.ts: drop tools whose
lowercased name contains `<lambda`, then default an absent or empty
description (JS falsiness of the empty string) to `<name> tool`. -/
def normalizeParsedTools (parsed : ParsedGradioSchema) : List NormalizedTool :=
  (parsed.tools.filter (fun t => !hasLambdaName t.name)).map (fun t =>
    ⟨t.name,
     (match t.description with
      | some d => if d = "" then t.name ++ " tool" else d
      | none => t.name ++ " tool"),
     t.inputSchema⟩)

/-- The parse-and-normalize pipeline as composed by its callers (invoke.ts):
`normalizeParsedTools(parseGradioSchemaResponse(x))`, with parse errors
propagated. -/
def gradioSchemaPipeline (schemaResponse : JsonVal) :
    Except String (List NormalizedTool) :=
  match parseGradioSchemaResponse schemaResponse with
  | .error e => .error e
  | .ok parsed => .ok (normalizeParsedTools parsed)

/-- Whether an array entry has the shape the parser keeps: an object with a
string `name` and an `inputSchema` key. -/
def isToolShaped (t : JsonVal) : Bool :=
  match t with
  | .obj fs =>
    (match alookup fs "name" with
     | some (.str _) => true
     | _ => false)
      && (alookup fs "inputSchema").isSome
  | _ => false

/-- Whether a JSON value is null. -/
def isNullVal (v : JsonVal) : Bool :=
  match v with
  | .null => true
  | _ => false

/-- The exact rejection condition of the pipeline, stated against the raw
schema response: an array with no tool-shaped entry, an object that is
empty or has a null value, or a value of any other shape. -/
def schemaRejects (x : JsonVal) : Bool :=
  match x with
  | .arr xs => xs.all (fun t => !isToolShaped t)
  | .obj fs => fs.isEmpty || fs.any (fun kv => isNullVal kv.2)
  | _ => true

/-- The name an array-form entry contributes when the parser keeps it: the
string `name` field of an object that also has an `inputSchema` key. -/
def arrayToolName (t : JsonVal) : Option String :=
  match t with
  | .obj fs =>
    match alookup fs "name", alookup fs "inputSchema" with
    | some (.str n), some _ => some n
    | _, _ => none
  | _ => none

/-- The tool names the parser extracts from a raw schema response, stated
directly against the input: the kept array entries' name fields in order,
or the object keys in order. -/
def parsedToolNames (x : JsonVal) : List String :=
  match x with
  | .arr xs => xs.filterMap arrayToolName
  | .obj fs => fs.map Prod.fst
  | _ => []

/-- A schema whose only tool is lambda-named: parsed fine, normalized to
the empty list, not rejected. -/
def lambdaOnlySchema : JsonVal :=
  .arr [.obj [("name", .str "<lambda>"), ("inputSchema", .obj [])]]

/-- A schema with one ordinary tool. -/
def goodSchema : JsonVal :=
  .arr [.obj [("name", .str "echo"),
              ("inputSchema",
               .obj [("properties", .obj []), ("required", .arr [])])]]

/-- A result with empty content. -/
def emptyContentResult : CallToolResult := ⟨[], false⟩

/-- Image-filter options with stripping enabled. -/
def stripOptsEnabled : ImageFilterOptions := ⟨true, "tool", "gr1_tool"⟩

/-- A result whose only content item is an image block. -/
def imageOnlyResult : CallToolResult :=
  ⟨[.objItem ⟨some "image", none, "data"⟩], false⟩

theorem alookup_aset_self {α : Type} (fs : List (String × α)) (k : String)
    (v : α) : alookup (aset fs k v) k = some v := by
  induction fs with
  | nil => simp [aset, alookup]
  | cons hd tl ih =>
    rcases hd with ⟨hk, hv⟩
    by_cases h : hk = k
    · simp [aset, h, alookup]
    · simp [aset, h, alookup, ih]

theorem alookup_aset_ne {α : Type} (fs : List (String × α)) (k k' : String)
    (v : α) (hne : k' ≠ k) : alookup (aset fs k v) k' = alookup fs k' := by
  have hkk : ¬k = k' := fun h => hne h.symm
  induction fs with
  | nil => simp [aset, alookup, hkk]
  | cons hd tl ih =>
    rcases hd with ⟨hk, hv⟩
    by_cases h : hk = k
    · subst h
      simp [aset, alookup, hkk]
    · simp [aset, alookup, h, ih]

theorem rewriteLegacy_eq_self_of_not_legacy (x : JsonVal)
    (h : ∀ s, paramsToolName x = some s →
      isLegacyModelSearchTool s = false
        ∧ isLegacyDatasetSearchTool s = false
        ∧ isLegacyRepoSearchTool s = false) :
    (rewriteLegacySearchToolCallRequest x).rewrittenBody = x := by
  rcases x with _ | bb | n | s | xs | bodyFields
  · rfl
  · rfl
  · rfl
  · rfl
  · rfl
  · rcases hm : alookup bodyFields "method" with _ | mv
    · simp [rewriteLegacySearchToolCallRequest, hm]
    · rcases mv with _ | bb | n | m | xs | fs
      · simp [rewriteLegacySearchToolCallRequest, hm]
      · simp [rewriteLegacySearchToolCallRequest, hm]
      · simp [rewriteLegacySearchToolCallRequest, hm]
      · by_cases hm2 : m = "tools/call"
        · subst hm2
          rcases hp : alookup bodyFields "params" with _ | pv
          · simp [rewriteLegacySearchToolCallRequest, hm, hp]
          · rcases pv with _ | bb | n | s | xs | paramFields
            · simp [rewriteLegacySearchToolCallRequest, hm, hp]
            · simp [rewriteLegacySearchToolCallRequest, hm, hp]
            · simp [rewriteLegacySearchToolCallRequest, hm, hp]
            · simp [rewriteLegacySearchToolCallRequest, hm, hp]
            · simp [rewriteLegacySearchToolCallRequest, hm, hp]
            · rcases hn : alookup paramFields "name" with _ | nv
              · simp [rewriteLegacySearchToolCallRequest, hm, hp, hn]
              · rcases nv with _ | bb | nn | toolName | xs | fs
                · simp [rewriteLegacySearchToolCallRequest, hm, hp, hn]
                · simp [rewriteLegacySearchToolCallRequest, hm, hp, hn]
                · simp [rewriteLegacySearchToolCallRequest, hm, hp, hn]
                · have hname : paramsToolName (.obj bodyFields) = some toolName := by
                    simp [paramsToolName, hp, hn]
                  obtain ⟨h1, h2, h3⟩ := h toolName hname
                  simp [rewriteLegacySearchToolCallRequest, hm, hp, hn, h1, h2, h3]
                · simp [rewriteLegacySearchToolCallRequest, hm, hp, hn]
                · simp [rewriteLegacySearchToolCallRequest, hm, hp, hn]
        · simp [rewriteLegacySearchToolCallRequest, hm, hm2]
      · simp [rewriteLegacySearchToolCallRequest, hm]
      · simp [rewriteLegacySearchToolCallRequest, hm]

theorem rewriteLegacy_fix_or_canonical (b : JsonVal) :
    (rewriteLegacySearchToolCallRequest b).rewrittenBody = b
      ∨ paramsToolName (rewriteLegacySearchToolCallRequest b).rewrittenBody
          = some REPO_SEARCH_TOOL_ID := by
  rcases b with _ | bb | n | s | xs | bodyFields
  · exact Or.inl rfl
  · exact Or.inl rfl
  · exact Or.inl rfl
  · exact Or.inl rfl
  · exact Or.inl rfl
  · rcases hm : alookup bodyFields "method" with _ | mv
    · exact Or.inl (by simp [rewriteLegacySearchToolCallRequest, hm])
    · rcases mv with _ | bb | n | m | xs | fs
      · exact Or.inl (by simp [rewriteLegacySearchToolCallRequest, hm])
      · exact Or.inl (by simp [rewriteLegacySearchToolCallRequest, hm])
      · exact Or.inl (by simp [rewriteLegacySearchToolCallRequest, hm])
      · by_cases hm2 : m = "tools/call"
        · subst hm2
          rcases hp : alookup bodyFields "params" with _ | pv
          · exact Or.inl (by simp [rewriteLegacySearchToolCallRequest, hm, hp])
          · rcases pv with _ | bb | n | s | xs | paramFields
            · exact Or.inl (by simp [rewriteLegacySearchToolCallRequest, hm, hp])
            · exact Or.inl (by simp [rewriteLegacySearchToolCallRequest, hm, hp])
            · exact Or.inl (by simp [rewriteLegacySearchToolCallRequest, hm, hp])
            · exact Or.inl (by simp [rewriteLegacySearchToolCallRequest, hm, hp])
            · exact Or.inl (by simp [rewriteLegacySearchToolCallRequest, hm, hp])
            · rcases hn : alookup paramFields "name" with _ | nv
              · exact Or.inl (by
                  simp [rewriteLegacySearchToolCallRequest, hm, hp, hn])
              · rcases nv with _ | bb | nn | toolName | xs | fs
                · exact Or.inl (by
                    simp [rewriteLegacySearchToolCallRequest, hm, hp, hn])
                · exact Or.inl (by
                    simp [rewriteLegacySearchToolCallRequest, hm, hp, hn])
                · exact Or.inl (by
                    simp [rewriteLegacySearchToolCallRequest, hm, hp, hn])
                · by_cases h1 : isLegacyModelSearchTool toolName
                  · refine Or.inr ?_
                    have hne : ("name" : String) ≠ "arguments" := by decide
                    simp [rewriteLegacySearchToolCallRequest, hm, hp, hn, h1,
                      paramsToolName, alookup_aset_self,
                      alookup_aset_ne _ "arguments" "name" _ hne,
                      REPO_SEARCH_TOOL_ID]
                  · by_cases h2 : isLegacyDatasetSearchTool toolName
                    · refine Or.inr ?_
                      have hne : ("name" : String) ≠ "arguments" := by decide
                      simp [rewriteLegacySearchToolCallRequest, hm, hp, hn, h1,
                        h2, paramsToolName, alookup_aset_self,
                        alookup_aset_ne _ "arguments" "name" _ hne,
                        REPO_SEARCH_TOOL_ID]
                    · by_cases h3 : isLegacyRepoSearchTool toolName
                      · refine Or.inr ?_
                        simp [rewriteLegacySearchToolCallRequest, hm, hp, hn,
                          h1, h2, h3, paramsToolName, alookup_aset_self,
                          REPO_SEARCH_TOOL_ID]
                      · exact Or.inl (by
                          simp [rewriteLegacySearchToolCallRequest, hm, hp, hn,
                            h1, h2, h3])
                · exact Or.inl (by
                    simp [rewriteLegacySearchToolCallRequest, hm, hp, hn])
                · exact Or.inl (by
                    simp [rewriteLegacySearchToolCallRequest, hm, hp, hn])
        · exact Or.inl (by simp [rewriteLegacySearchToolCallRequest, hm, hm2])
      · exact Or.inl (by simp [rewriteLegacySearchToolCallRequest, hm])
      · exact Or.inl (by simp [rewriteLegacySearchToolCallRequest, hm])

/-- C7: the legacy request rewriter is idempotent: applying it twice yields
the same rewritten body as applying it once. After a legacy rewrite the
params tool name is the canonical id, on which none of the three legacy
predicates fires, so a second application leaves the body unchanged. -/
theorem c7_legacy_rewrite_idempotent (b : JsonVal) :
    (rewriteLegacySearchToolCallRequest
      (rewriteLegacySearchToolCallRequest b).rewrittenBody).rewrittenBody
      = (rewriteLegacySearchToolCallRequest b).rewrittenBody := by
  rcases rewriteLegacy_fix_or_canonical b with hfix | hcanon
  · rw [hfix]
    exact hfix
  · exact rewriteLegacy_eq_self_of_not_legacy _ (by
      intro s hs
      rw [hcanon] at hs
      obtain rfl : REPO_SEARCH_TOOL_ID = s := Option.some.inj hs
      refine ⟨by decide, by decide, by decide⟩)

/-- The legacy model_search ingress rewrite maps the spec's example request
to the canonical hub_repo_search request: repo_types set to model, task and
library merged into deduplicated filters and removed, name rewritten. -/
theorem c6_model_search_rewrite_example :
    (rewriteLegacySearchToolCallRequest modelSearchExampleBody).rewrittenBody
        = modelSearchExpectedBody
      ∧ (rewriteLegacySearchToolCallRequest modelSearchExampleBody).legacyToolName
        = some "model_search"
      ∧ (rewriteLegacySearchToolCallRequest modelSearchExampleBody).rewrittenToolName
        = some "hub_repo_search" := by
  refine ⟨rfl, rfl, rfl⟩

/-- Tool-id normalisation collapses the legacy search ids to the canonical
search id, and the legacy detail ids to the single inspection id, preserving
first-occurrence order and de-duplicating. -/
theorem c9_normalize_tool_ids_examples :
    normalizeBuiltInTools
        [ MODEL_SEARCH_TOOL_ID, REPO_SEARCH_TOOL_ID, DATASET_SEARCH_TOOL_ID]
        = [REPO_SEARCH_TOOL_ID]
      ∧ normalizeBuiltInTools
        [ MODEL_DETAIL_TOOL_ID, "custom_flag", DATASET_DETAIL_TOOL_ID]
        = ["custom_flag", HUB_REPO_DETAILS_TOOL_ID] := by
  refine ⟨rfl, rfl⟩

theorem metadataOps_preserve_private_free (ops : List MetadataCacheOp)
    (st : SpaceMetadataCacheState)
    (hinv : ∀ n e, alookup st.cache n = some e → e.privateFlag = false) :
    ∀ n e, alookup (ops.foldl applyMetadataOp st).cache n = some e →
      e.privateFlag = false := by
  induction ops generalizing st with
  | nil => simpa using hinv
  | cons op rest ih =>
    simp only [List.foldl_cons]
    apply ih
    intro n e he
    cases op with
    | put pn m =>
      simp only [applyMetadataOp, putMetadata] at he
      by_cases hp : m.privateFlag
      · rw [if_pos hp] at he
        exact hinv n e he
      · rw [if_neg hp] at he
        simp only [metadataSet] at he
        by_cases hn : n = pn
        · subst hn
          rw [alookup_aset_self] at he
          obtain rfl : m = e := Option.some.inj he
          simpa using hp
        · rw [alookup_aset_ne _ _ _ _ hn] at he
          exact hinv n e he
    | touch pn tnow =>
      simp only [applyMetadataOp, metadataUpdateTimestamp] at he
      cases hl : alookup st.cache pn with
      | none =>
        simp only [hl] at he
        exact hinv n e he
      | some entry0 =>
        simp only [hl] at he
        by_cases hn : n = pn
        · subst hn
          rw [alookup_aset_self] at he
          obtain rfl : { entry0 with fetchedAt := tnow } = e :=
            Option.some.inj he
          simpa using hinv n entry0 hl
        · rw [alookup_aset_ne _ _ _ _ hn] at he
          exact hinv n e he

/-- C1: over every sequence of cache writes in which puts go through the
discovery pipeline's private-filtering put and touches only bump the
timestamp, a successful metadata cache read returns an entry whose private
flag is false: a private=true entry is never observable. -/
theorem c1_metadata_cache_never_serves_private (ops : List MetadataCacheOp)
    (ttl now : Nat) (spaceName : String) (entry : CachedSpaceMetadata)
    (h : (metadataGet ttl now (runMetadataOps ops) spaceName).1 = some entry) :
    entry.privateFlag = false := by
  have hfree := metadataOps_preserve_private_free ops emptyMetadataCache
    (by intro n e he; simp [emptyMetadataCache, alookup] at he)
  rw [runMetadataOps] at h
  cases hl : alookup (ops.foldl applyMetadataOp emptyMetadataCache).cache
      spaceName with
  | none =>
    simp only [metadataGet, hl] at h
    exact Option.noConfusion h
  | some entry0 =>
    simp only [metadataGet, hl] at h
    by_cases hv : now - entry0.fetchedAt < ttl
    · rw [if_pos hv] at h
      obtain rfl : entry0 = entry := Option.some.inj h
      exact hfree spaceName entry0 hl
    · rw [if_neg hv] at h
      simp at h

/-- Witness for C1 at a concrete write sequence: one put of a public entry
followed by a fresh read. -/
theorem c1_witness : sampleMetadataPub.privateFlag = false :=
  c1_metadata_cache_never_serves_private
    [MetadataCacheOp.put "evalstate/flux1_schnell" sampleMetadataPub]
    300000 0 "evalstate/flux1_schnell" sampleMetadataPub rfl

/-- C2 is a code bug: on the failing input — two upstream progress
notifications with a downstream sendNotification that always throws — the
relay of createToolHandler in gradio-endpoint-connector.ts attempts a
downstream send for both notifications (no latch, no catch), while the
relay of callGradioToolWithHeaders in gradio-caller.ts latches after the
first failure and attempts exactly one send, as the claim requires. -/
theorem c2_connector_relay_retries_after_failure :
    createToolHandlerRelayRun [progressNoteFirst, progressNoteSecond] = 2
      ∧ (gradioCallerRelayRun true false (fun _ => true)
          [progressNoteFirst, progressNoteSecond]).sendCalls = 1 := by
  refine ⟨rfl, rfl⟩

/-- C3 is a code bug: on every exit path (success result, isError result
converted to a throw, thrown transport error) the handler produced by
createToolHandler never closes the lazily opened upstream SSE client,
while callGradioToolWithHeaders closes it on every exit path as the claim
requires. -/
theorem c3_connector_never_closes_client :
    ∀ outcome : UpstreamOutcome,
      (createToolHandlerEvents outcome).contains InvocationEvent.closeClient
          = false
        ∧ (callGradioToolEvents outcome).contains InvocationEvent.closeClient
          = true := by
  intro outcome
  rcases outcome with r | msg
  · rcases r with ⟨content, isErr⟩
    cases isErr
    · exact ⟨rfl, rfl⟩
    · exact ⟨rfl, rfl⟩
  · exact ⟨rfl, rfl⟩

/-- Counterexample for C4: rewriting an already-rewritten result with the
same header is not a no-op — the greedy host group matches through the
inserted replica segment and the rewrite inserts it a second time. -/
theorem c4_rewrite_not_idempotent_counterexample :
    rewriteReplicaUrlsInResult false
        (rewriteReplicaUrlsInResult false replicaExampleResult (some "a-b"))
        (some "a-b")
      ≠ rewriteReplicaUrlsInResult false replicaExampleResult (some "a-b") := by
  decide

/-- C4 amended: the rewrite is a no-op whenever no replica id can be
extracted from the captured header, and whenever the NO_REPLICA_REWRITE
kill-switch is set; with a replica id present it is not idempotent (see the
counterexample). -/
theorem c4_rewrite_noop_without_replica_id (result : CallToolResult)
    (header : Option String) :
    (extractReplicaId header = none →
        rewriteReplicaUrlsInResult false result header = result)
      ∧ rewriteReplicaUrlsInResult true result header = result := by
  constructor
  · intro h
    simp [rewriteReplicaUrlsInResult, h]
  · rfl

/-- Witness for C4 at a concrete input: a single-segment header yields no
replica id and the rewrite is the identity. -/
theorem c4_witness :
    rewriteReplicaUrlsInResult false replicaExampleResult (some "singlepart")
      = replicaExampleResult :=
  (c4_rewrite_noop_without_replica_id replicaExampleResult
    (some "singlepart")).1 rfl

/-- C5: the concrete replica-extraction and rewrite scenarios of the spec:
extract_replica_id on the three sample headers, and the rewrite of the
sample result with the captured header, with the non-text item byte-equal
to the input. -/
theorem c5_replica_examples :
    extractReplicaId (some "oyerizs4-dspr4") = some "dspr4"
      ∧ extractReplicaId (some "singlepart") = none
      ∧ extractReplicaId (some "") = none
      ∧ rewriteReplicaUrlsInResult false qwenInputResult (some "oyerizs4-dspr4")
        = qwenExpectedResult := by
  refine ⟨rfl, rfl, rfl, rfl⟩

theorem parseArrayToolEntry_isSome (t : JsonVal) :
    (parseArrayToolEntry t).isSome = isToolShaped t := by
  rcases t with _ | b | n | s | xs | fs
  · rfl
  · rfl
  · rfl
  · rfl
  · rfl
  · rcases hn : alookup fs "name" with _ | nv
    · rcases hi : alookup fs "inputSchema" with _ | iv <;>
        simp [parseArrayToolEntry, isToolShaped, hn, hi]
    · rcases nv with _ | bb | nn | sname | xs2 | fs2 <;>
        rcases hi : alookup fs "inputSchema" with _ | iv <;>
          simp [parseArrayToolEntry, isToolShaped, hn, hi]

theorem filterMap_tools_isEmpty_eq_all_not_shaped (xs : List JsonVal) :
    (xs.filterMap parseArrayToolEntry).isEmpty
      = xs.all (fun t => !isToolShaped t) := by
  induction xs with
  | nil => rfl
  | cons hd tl ih =>
    cases hpt : parseArrayToolEntry hd with
    | none =>
      have hsh : isToolShaped hd = false := by
        rw [← parseArrayToolEntry_isSome, hpt]
        rfl
      simp [List.filterMap_cons, hpt, hsh, ih]
    | some tool =>
      have hsh : isToolShaped hd = true := by
        rw [← parseArrayToolEntry_isSome, hpt]
        rfl
      simp [List.filterMap_cons, hpt, hsh]

theorem parseObjectEntries_error_iff (fs : List (String × JsonVal)) :
    (∃ e, parseObjectEntries fs = .error e)
      ↔ fs.any (fun kv => isNullVal kv.2) = true := by
  induction fs with
  | nil => simp [parseObjectEntries]
  | cons hd tl ih =>
    rcases hd with ⟨name, sch⟩
    rcases sch with _ | b | n | s | xs | fs2
    · simp [parseObjectEntries, isNullVal]
    all_goals
      cases hrec : parseObjectEntries tl with
      | error e =>
        constructor
        · intro _
          simp only [List.any_cons, isNullVal, Bool.false_or]
          exact ih.mp ⟨e, hrec⟩
        · intro _
          refine ⟨e, ?_⟩
          simp only [parseObjectEntries, hrec]
      | ok ts =>
        constructor
        · rintro ⟨e2, he⟩
          simp only [parseObjectEntries, hrec] at he
          cases he
        · intro hAny
          exfalso
          simp only [List.any_cons, isNullVal, Bool.false_or] at hAny
          obtain ⟨e2, he⟩ := ih.mpr hAny
          rw [hrec] at he
          cases he

theorem parseObjectEntries_length (fs : List (String × JsonVal))
    (ts : List ParsedTool) (h : parseObjectEntries fs = .ok ts) :
    ts.length = fs.length := by
  induction fs generalizing ts with
  | nil =>
    simp only [parseObjectEntries] at h
    obtain rfl : ([] : List ParsedTool) = ts := Except.ok.inj h
    rfl
  | cons hd tl ih =>
    rcases hd with ⟨name, sch⟩
    rcases sch with _ | b | n | s | xs | fs2
    · simp [parseObjectEntries] at h
    all_goals
      cases hrec : parseObjectEntries tl with
      | error e =>
        simp only [parseObjectEntries, hrec] at h
        exact Except.noConfusion h
      | ok ts' =>
        simp only [parseObjectEntries, hrec] at h
        obtain rfl := (Except.ok.inj h).symm
        simp [ih ts' hrec]

theorem parseArrayToolEntry_name (t : JsonVal) :
    (parseArrayToolEntry t).map (fun p => p.name) = arrayToolName t := by
  rcases t with _ | b | n | s | xs | fs
  · rfl
  · rfl
  · rfl
  · rfl
  · rfl
  · rcases hn : alookup fs "name" with _ | nv
    · rcases hi : alookup fs "inputSchema" with _ | iv <;>
        simp [parseArrayToolEntry, arrayToolName, hn, hi]
    · rcases nv with _ | bb | nn | sname | xs2 | fs2 <;>
        rcases hi : alookup fs "inputSchema" with _ | iv <;>
          simp [parseArrayToolEntry, arrayToolName, hn, hi]

theorem parseObjectEntries_names (fs : List (String × JsonVal))
    (ts : List ParsedTool) (h : parseObjectEntries fs = .ok ts) :
    ts.map (fun t => t.name) = fs.map Prod.fst := by
  induction fs generalizing ts with
  | nil =>
    simp only [parseObjectEntries] at h
    obtain rfl : ([] : List ParsedTool) = ts := Except.ok.inj h
    rfl
  | cons hd tl ih =>
    rcases hd with ⟨name, sch⟩
    rcases sch with _ | b | n | s | xs | fs2
    · simp [parseObjectEntries] at h
    all_goals
      cases hrec : parseObjectEntries tl with
      | error e =>
        simp only [parseObjectEntries, hrec] at h
        exact Except.noConfusion h
      | ok ts' =>
        simp only [parseObjectEntries, hrec] at h
        obtain rfl := (Except.ok.inj h).symm
        simp [ih ts' hrec]

theorem parseGradioSchema_names (x : JsonVal) (parsed : ParsedGradioSchema)
    (hp : parseGradioSchemaResponse x = .ok parsed) :
    parsed.tools.map (fun t => t.name) = parsedToolNames x := by
  rcases x with _ | b | n | s | xs | fs
  · exact Except.noConfusion hp
  · exact Except.noConfusion hp
  · exact Except.noConfusion hp
  · exact Except.noConfusion hp
  · simp only [parseGradioSchemaResponse] at hp
    by_cases hE : (xs.filterMap parseArrayToolEntry).isEmpty
    · rw [if_pos hE] at hp
      exact Except.noConfusion hp
    · rw [if_neg hE] at hp
      obtain rfl :
          (⟨.array, xs.filterMap parseArrayToolEntry⟩ : ParsedGradioSchema)
            = parsed := Except.ok.inj hp
      show (xs.filterMap parseArrayToolEntry).map (fun t => t.name)
        = parsedToolNames (.arr xs)
      rw [List.map_filterMap]
      simp only [parseArrayToolEntry_name, parsedToolNames]
  · simp only [parseGradioSchemaResponse] at hp
    cases hrec : parseObjectEntries fs with
    | error e =>
      simp only [hrec] at hp
      exact Except.noConfusion hp
    | ok tools =>
      simp only [hrec] at hp
      by_cases hE : tools.isEmpty
      · rw [if_pos hE] at hp
        exact Except.noConfusion hp
      · rw [if_neg hE] at hp
        obtain rfl : (⟨.object, tools⟩ : ParsedGradioSchema) = parsed :=
          Except.ok.inj hp
        show tools.map (fun t => t.name) = parsedToolNames (.obj fs)
        simp only [parsedToolNames]
        exact parseObjectEntries_names fs tools hrec

theorem normalizeParsedTools_names (parsed : ParsedGradioSchema) :
    (normalizeParsedTools parsed).map (fun t => t.name)
      = (parsed.tools.map (fun t => t.name)).filter
          (fun n => !hasLambdaName n) := by
  rw [List.filter_map]
  simp only [normalizeParsedTools, List.map_map]
  rfl

/-- C8 amended: the parse-and-normalize pipeline rejects exactly when the
raw schema response is an array with no tool-shaped entry, an object that
is empty or carries a null value, or neither an array nor an object — that
is, exactly when the pre-filter parsed list is empty (or unbuildable), not
when the normalized list is empty; and on success it drops exactly the
lambda-named tools: the returned names are precisely the parsed tool names
without a case-insensitive `<lambda` occurrence, in order, so every tool it
returns has a non-lambda name and every non-lambda parsed tool is
retained. -/
theorem c8_rejection_characterization (x : JsonVal) :
    ((∃ e, gradioSchemaPipeline x = .error e) ↔ schemaRejects x = true)
      ∧ (∀ ts, gradioSchemaPipeline x = .ok ts →
          ts.map (fun t => t.name)
              = (parsedToolNames x).filter (fun n => !hasLambdaName n)
            ∧ ∀ t ∈ ts, hasLambdaName t.name = false) := by
  constructor
  · rcases x with _ | b | n | s | xs | fs
    · simp [gradioSchemaPipeline, parseGradioSchemaResponse, schemaRejects]
    · simp [gradioSchemaPipeline, parseGradioSchemaResponse, schemaRejects]
    · simp [gradioSchemaPipeline, parseGradioSchemaResponse, schemaRejects]
    · simp [gradioSchemaPipeline, parseGradioSchemaResponse, schemaRejects]
    · simp only [gradioSchemaPipeline, parseGradioSchemaResponse, schemaRejects]
      rw [← filterMap_tools_isEmpty_eq_all_not_shaped]
      by_cases hE : (xs.filterMap parseArrayToolEntry).isEmpty
      · simp [hE]
      · simp [hE]
    · simp only [gradioSchemaPipeline, parseGradioSchemaResponse, schemaRejects]
      cases hrec : parseObjectEntries fs with
      | error e =>
        have hany := (parseObjectEntries_error_iff fs).mp ⟨e, hrec⟩
        simp [hany]
      | ok ts =>
        have hany : fs.any (fun kv => isNullVal kv.2) = false := by
          cases hA : fs.any (fun kv => isNullVal kv.2) with
          | false => rfl
          | true =>
            obtain ⟨e, he⟩ := (parseObjectEntries_error_iff fs).mpr hA
            rw [hrec] at he
            cases he
        have hlen := parseObjectEntries_length fs ts hrec
        by_cases hE : ts.isEmpty
        · have hts : ts = [] := by
            cases ts with
            | nil => rfl
            | cons a l => exact Bool.noConfusion hE
          have hfs : fs = [] := by
            subst hts
            cases fs with
            | nil => rfl
            | cons a l => simp at hlen
          subst hfs
          simp [hany, hE]
        · have hfsne : fs.isEmpty = false := by
            cases hf : fs with
            | nil =>
              subst hf
              simp only [parseObjectEntries] at hrec
              obtain rfl : ([] : List ParsedTool) = ts := Except.ok.inj hrec
              exact absurd rfl hE
            | cons a l => rfl
          simp [hany, hE, hfsne]
  · intro ts hts
    cases hp : parseGradioSchemaResponse x with
    | error e =>
      rw [gradioSchemaPipeline, hp] at hts
      cases hts
    | ok parsed =>
      rw [gradioSchemaPipeline, hp] at hts
      obtain rfl : normalizeParsedTools parsed = ts := Except.ok.inj hts
      constructor
      · rw [normalizeParsedTools_names, parseGradioSchema_names x parsed hp]
      · intro t ht
        simp only [normalizeParsedTools] at ht
        rcases List.mem_map.mp ht with ⟨t0, ht0, rfl⟩
        have hkeep := List.of_mem_filter ht0
        simpa using hkeep

/-- Counterexample for C8: a schema whose only tool is lambda-named parses
fine (the parsed list is nonempty), normalizes to the empty tool list, and
is not rejected — so the pipeline does not reject exactly when the
normalized list is empty. -/
theorem c8_lambda_only_schema_not_rejected :
    gradioSchemaPipeline lambdaOnlySchema = .ok [] := rfl

/-- Witness for C8 at a concrete schema with one ordinary tool: the
returned names are exactly the non-lambda parsed names and the returned
tool's name is lambda-free. -/
theorem c8_witness :
    ["echo"] = (parsedToolNames goodSchema).filter (fun n => !hasLambdaName n)
      ∧ hasLambdaName "echo" = false := by
  have h := (c8_rejection_characterization goodSchema).2
    [⟨"echo", "echo tool",
      .obj [("properties", .obj []), ("required", .arr [])]⟩] rfl
  exact ⟨h.1, h.2 _ (List.mem_cons_self _ _)⟩

/-- C10 amended: with stripping enabled, a result with nonempty content
never strips to empty content — when every item is an image block the
placeholder text block is substituted; a result with no image blocks is
returned unchanged, as is any result when stripping is disabled. The input
with empty content passes through with empty content (see the
counterexample), which is the one case the unrestricted claim misses. -/
theorem c10_strip_image_amended (r : CallToolResult)
    (opts : ImageFilterOptions) :
    (opts.enabled = true → r.content ≠ [] →
        (stripImageContentFromResult r opts).content ≠ [])
      ∧ (r.content.all (fun i => !isImageItem i) = true →
          stripImageContentFromResult r opts = r)
      ∧ (opts.enabled = false → stripImageContentFromResult r opts = r)
      ∧ (opts.enabled = true → r.content ≠ [] →
          r.content.all (fun i => isImageItem i) = true →
          (stripImageContentFromResult r opts).content
            = [ContentItem.objItem ⟨some "text", some imageOmittedText, ""⟩]) := by
  refine ⟨?_, ?_, ?_, ?_⟩
  · intro he hne
    have hie : r.content.isEmpty = false := by
      cases hc : r.content with
      | nil => exact absurd hc hne
      | cons a l => rfl
    simp only [stripImageContentFromResult, he, Bool.not_true,
      Bool.false_eq_true, if_false, hie]
    by_cases hlen : (r.content.filter fun item => !isImageItem item).length
        = r.content.length
    · simp [hlen, hne]
    · simp only [hlen, if_false]
      by_cases hfe : (r.content.filter fun item => !isImageItem item).isEmpty
      · simp [hfe]
      · have hfne : r.content.filter (fun item => !isImageItem item) ≠ [] := by
          intro hc
          rw [hc] at hfe
          exact hfe rfl
        simp [hfe, hfne]
  · intro hall
    have hfe : r.content.filter (fun item => !isImageItem item) = r.content :=
      List.filter_eq_self.mpr (fun a ha => (List.all_eq_true.mp hall) a ha)
    by_cases he : opts.enabled
    · cases hc : r.content.isEmpty with
      | true => simp [stripImageContentFromResult, he, hc]
      | false => simp [stripImageContentFromResult, he, hc, hfe]
    · simp [stripImageContentFromResult, he]
  · intro he
    simp [stripImageContentFromResult, he]
  · intro he hne hall
    have hie : r.content.isEmpty = false := by
      cases hc : r.content with
      | nil => exact absurd hc hne
      | cons a l => rfl
    have hfe : r.content.filter (fun item => !isImageItem item) = [] := by
      rw [List.filter_eq_nil_iff]
      intro a ha
      have := (List.all_eq_true.mp hall) a ha
      simp [this]
    have h0 : ¬(0 = r.content.length) := by
      cases hc : r.content with
      | nil => exact absurd hc hne
      | cons a l => simp
    simp [stripImageContentFromResult, he, hie, hfe, h0]

/-- Counterexample for C10: on a result whose content is already empty the
filter returns the input unchanged, so the output content is empty — no
placeholder is substituted. -/
theorem c10_empty_content_passthrough :
    (stripImageContentFromResult emptyContentResult stripOptsEnabled).content
      = [] := rfl

/-- Witness for C10 at a concrete input: an image-only result strips to
nonempty content. -/
theorem c10_witness :
    (stripImageContentFromResult imageOnlyResult stripOptsEnabled).content
      ≠ [] :=
  (c10_strip_image_amended imageOnlyResult stripOptsEnabled).1 rfl
    (by decide)
